import Mathlib

/-!
Verification of the video2docs repository against its specification.

The development shallowly embeds the Python sources:
* `src/video2docs/transcriber.py` — `TranscriptSegment`, `Transcriber.merge_segments_by_rule`;
* `src/video2docs/markdown_generator.py` — `_replace_image_marks`, `_sanitize_filename`;
* `src/video2docs/llm_processor.py` — `_extract_image_plans_from_content`;
* `src/video2docs/cli.py` — `get_next_task_id`, `create_task_folder`,
  `run_conversion` / `run_conversion_with_retry`.

Python floats are embedded as rationals (`ℚ`); all the operations the code
performs on them (copying, subtraction, order comparison) are modelled
exactly.  Python strings are embedded as `List Char`.  `re.sub` and
`re.findall` over the concrete regular expressions appearing in the code are
embedded as leftmost, non-overlapping scanners; every pattern in the code is
deterministic (each greedy `[^\]]*`, `\s*`, `\d+` run is followed by a
character outside its class), so the scanners implement exactly the Python
semantics.  The scanners use an explicit fuel argument (instantiated with the
length of the input) so that they compute by kernel reduction.
-/

namespace Video2docs

/-! ## String utilities (Python `str` operations on `List Char`) -/

/-- The whitespace characters stripped by Python's `str.strip()` (ASCII range). -/
def isPySpace (c : Char) : Bool :=
  c = ' ' || c = '\t' || c = '\n' || c = '\x0d' || c = '\x0b' || c = '\x0c'

/-- Python `str.strip()`: drop whitespace from both ends. -/
def pyStrip (cs : List Char) : List Char :=
  ((cs.dropWhile isPySpace).reverse.dropWhile isPySpace).reverse

/-- Python `" ".join(texts)`: single space between consecutive elements. -/
def joinTexts : List (List Char) → List Char
  | [] => []
  | [t] => t
  | t :: ts => t ++ ' ' :: joinTexts ts

/-- Numeric value of a digit character (Python `int` on a digit string uses this). -/
def digitVal (c : Char) : Nat := c.toNat - 48

/-- Python `int(s)` for a string of ASCII digits. -/
def digitsVal (ds : List Char) : Nat :=
  ds.foldl (fun acc c => acc * 10 + digitVal c) 0

/-- The decimal digit character for `n < 10`. -/
def digitChar : Nat → Char
  | 0 => '0' | 1 => '1' | 2 => '2' | 3 => '3' | 4 => '4'
  | 5 => '5' | 6 => '6' | 7 => '7' | 8 => '8' | _ => '9'

/-- Decimal digits of `n`, most significant first, with explicit fuel. -/
def natDigitsF : Nat → Nat → List Char
  | 0, n => [digitChar (n % 10)]
  | fuel + 1, n => if n < 10 then [digitChar n] else natDigitsF fuel (n / 10) ++ [digitChar (n % 10)]

/-- Decimal representation of `n` (Python `str(n)` / `f-string` formatting). -/
def natDigits (n : Nat) : List Char := natDigitsF n n

/-- Python `f"{n:03d}"`: decimal digits left padded with zeros to width 3. -/
def pad3 (n : Nat) : List Char :=
  let ds := natDigits n
  List.replicate (3 - ds.length) '0' ++ ds

/-- Strip a literal from the front of the input, or fail. -/
def stripLit : List Char → List Char → Option (List Char)
  | [], cs => some cs
  | _ :: _, [] => none
  | p :: ps, c :: cs => if c = p then stripLit ps cs else none

/-- Python `s.split("_")`. -/
def splitUnderscore : List Char → List (List Char)
  | [] => [[]]
  | c :: rest =>
    match splitUnderscore rest with
    | [] => if c = '_' then [[], []] else [[c]]
    | h :: t => if c = '_' then [] :: h :: t else (c :: h) :: t

/-! ## `transcriber.py` -/

/-- One transcript span (`TranscriptSegment`); `start`/`end` are seconds. -/
structure TranscriptSegment where
  start : ℚ
  «end» : ℚ
  text : List Char
deriving DecidableEq, Repr

instance : Inhabited TranscriptSegment := ⟨⟨0, 0, []⟩⟩

/-- The three parameters of `merge_segments_by_rule`. -/
structure MergeParams where
  minDuration : ℚ
  maxDuration : ℚ
  mergeGap : ℚ
deriving DecidableEq, Repr

/-- The sentence-final punctuation set `end_punctuation` of the source. -/
def sentenceEnders : List Char := ['。', '！', '？', '.', '!', '?']

/-- Does `current.text.strip()` end in sentence-final punctuation?  This is
the source's `current.text.strip() and current.text.strip()[-1] in end_punctuation`. -/
def endsPunct (cs : List Char) : Bool :=
  match (pyStrip cs).getLast? with
  | some c => sentenceEnders.contains c
  | none => false

/-- The merge decision of `merge_segments_by_rule` for the running segment
`cur` and the next segment `nxt`: the `should_merge` boolean, including the
punctuation override that forces it to `false`. -/
def shouldMerge (p : MergeParams) (cur nxt : TranscriptSegment) : Bool :=
  let gap := nxt.start - cur.«end»
  let combined := nxt.«end» - cur.start
  let base := decide (cur.«end» - cur.start < p.minDuration)
      || (decide (gap ≤ p.mergeGap) && decide (combined < p.maxDuration))
  if endsPunct cur.text then false else base

/-- Merging two segments: keep the left start, take the right end, join the
texts with a single space (source: `TranscriptSegment(start=current.start,
end=next_seg.end, text=current.text + " " + next_seg.text)`). -/
def mergeTwo (cur nxt : TranscriptSegment) : TranscriptSegment :=
  ⟨cur.start, nxt.«end», cur.text ++ ' ' :: nxt.text⟩

/-- The loop of `merge_segments_by_rule`: `cur` is the running `current`
segment, the list is the remaining input. -/
def mergeAux (p : MergeParams) (cur : TranscriptSegment) :
    List TranscriptSegment → List TranscriptSegment
  | [] => [cur]
  | nxt :: rest =>
    if shouldMerge p cur nxt then
      mergeAux p (mergeTwo cur nxt) rest
    else
      cur :: mergeAux p nxt rest

/-- `Transcriber.merge_segments_by_rule`. -/
def merge_segments_by_rule (p : MergeParams) : List TranscriptSegment → List TranscriptSegment
  | [] => []
  | s :: rest => mergeAux p s rest

/-- The segment an output span was built from a group of consecutive input
spans: start of the first, end of the last, texts joined by single spaces. -/
def combineGroup (g : List TranscriptSegment) : TranscriptSegment :=
  ⟨g.headI.start, g.getLastI.«end», joinTexts (g.map (·.text))⟩

/-! ## Lemmas about `merge_segments_by_rule` -/

theorem joinTexts_cons_ne (a : List Char) {l : List (List Char)} (h : l ≠ []) :
    joinTexts (a :: l) = a ++ ' ' :: joinTexts l := by
  cases l with
  | nil => exact absurd rfl h
  | cons b t => rfl

theorem joinTexts_glue (a b : List Char) (l : List (List Char)) :
    joinTexts ((a ++ ' ' :: b) :: l) = joinTexts (a :: b :: l) := by
  cases l with
  | nil => rfl
  | cons x xs =>
    rw [joinTexts_cons_ne (a ++ ' ' :: b) (l := x :: xs) (by simp),
      joinTexts_cons_ne a (l := b :: x :: xs) (by simp),
      joinTexts_cons_ne b (l := x :: xs) (by simp)]
    simp

theorem joinTexts_concat (b : List Char) {l : List (List Char)} (h : l ≠ []) :
    joinTexts (l ++ [b]) = joinTexts l ++ ' ' :: b := by
  induction l with
  | nil => exact absurd rfl h
  | cons a t ih =>
    cases t with
    | nil => rfl
    | cons c u =>
      rw [List.cons_append, joinTexts_cons_ne _ (by simp),
        joinTexts_cons_ne _ (by simp), ih (by simp), List.append_assoc]
      rfl

theorem mergeAux_ne_nil (p : MergeParams) (cur : TranscriptSegment)
    (rest : List TranscriptSegment) : mergeAux p cur rest ≠ [] := by
  induction rest generalizing cur with
  | nil => simp [mergeAux]
  | cons nxt rest ih =>
    by_cases h : shouldMerge p cur nxt
    · simpa [mergeAux, h] using ih (mergeTwo cur nxt)
    · simp [mergeAux, h]

theorem mergeAux_joinTexts (p : MergeParams) (cur : TranscriptSegment)
    (rest : List TranscriptSegment) :
    joinTexts ((mergeAux p cur rest).map (·.text)) =
      joinTexts (cur.text :: rest.map (·.text)) := by
  induction rest generalizing cur with
  | nil => rfl
  | cons nxt rest ih =>
    by_cases h : shouldMerge p cur nxt
    · rw [mergeAux, if_pos h, ih (mergeTwo cur nxt)]
      exact joinTexts_glue cur.text nxt.text (rest.map (·.text))
    · rw [mergeAux, if_neg h, List.map_cons,
        joinTexts_cons_ne cur.text (l := (mergeAux p nxt rest).map (·.text))
          (by simp [mergeAux_ne_nil]),
        ih nxt, List.map_cons,
        joinTexts_cons_ne cur.text (l := nxt.text :: rest.map (·.text)) (by simp)]

theorem mergeAux_headI_start (p : MergeParams) (cur : TranscriptSegment)
    (rest : List TranscriptSegment) :
    (mergeAux p cur rest).headI.start = cur.start := by
  induction rest generalizing cur with
  | nil => rfl
  | cons nxt rest ih =>
    by_cases h : shouldMerge p cur nxt
    · rw [mergeAux, if_pos h, ih (mergeTwo cur nxt)]; rfl
    · rw [mergeAux, if_neg h]; rfl

theorem getLastI_cons_ne {α : Type} [Inhabited α] (a : α) {l : List α} (h : l ≠ []) :
    (a :: l).getLastI = l.getLastI := by
  cases l with
  | nil => exact absurd rfl h
  | cons b t =>
    rw [List.getLastI_eq_getLast?, List.getLastI_eq_getLast?, List.getLast?_cons_cons]

theorem mergeAux_getLastI_end (p : MergeParams) (cur : TranscriptSegment)
    (rest : List TranscriptSegment) :
    (mergeAux p cur rest).getLastI.«end» = (cur :: rest).getLastI.«end» := by
  induction rest generalizing cur with
  | nil => rfl
  | cons nxt rest ih =>
    by_cases h : shouldMerge p cur nxt
    · rw [mergeAux, if_pos h, ih (mergeTwo cur nxt)]
      cases rest with
      | nil => rfl
      | cons x xs =>
        rw [getLastI_cons_ne (mergeTwo cur nxt) (l := x :: xs) (by simp),
          getLastI_cons_ne cur (l := nxt :: x :: xs) (by simp),
          getLastI_cons_ne nxt (l := x :: xs) (by simp)]
    · rw [mergeAux, if_neg h,
        getLastI_cons_ne cur (l := mergeAux p nxt rest) (mergeAux_ne_nil p nxt rest),
        ih nxt, getLastI_cons_ne cur (l := nxt :: rest) (by simp)]

theorem combineGroup_single (s : TranscriptSegment) : combineGroup [s] = s := rfl

theorem getLastI_concat {α : Type} [Inhabited α] (l : List α) (a : α) :
    (l ++ [a]).getLastI = a := by
  induction l with
  | nil => rfl
  | cons b t ih => rw [List.cons_append, getLastI_cons_ne _ (by simp), ih]

theorem combineGroup_snoc {g : List TranscriptSegment} (h : g ≠ [])
    (nxt : TranscriptSegment) :
    combineGroup (g ++ [nxt]) = mergeTwo (combineGroup g) nxt := by
  cases g with
  | nil => exact absurd rfl h
  | cons a t =>
    unfold combineGroup mergeTwo
    congr 1
    · rw [getLastI_concat]
    · rw [List.map_append, List.map_singleton,
        joinTexts_concat _ (l := (a :: t).map (·.text)) (by simp)]

/-- Partition invariant of the merge loop: when the running segment `cur` is
the combination of a non-empty group `g` of already-consumed input segments,
the output of `mergeAux` is the image under `combineGroup` of a partition of
`g ++ rest` into non-empty groups of consecutive segments. -/
theorem mergeAux_partition (p : MergeParams) (rest : List TranscriptSegment) :
    ∀ g : List TranscriptSegment, g ≠ [] →
      ∃ gs : List (List TranscriptSegment), gs ≠ [] ∧ (∀ x ∈ gs, x ≠ []) ∧
        gs.flatten = g ++ rest ∧ mergeAux p (combineGroup g) rest = gs.map combineGroup := by
  induction rest with
  | nil =>
    intro g hg
    exact ⟨[g], by simp, by simpa using hg, by simp, by simp [mergeAux]⟩
  | cons nxt rest ih =>
    intro g hg
    by_cases h : shouldMerge p (combineGroup g) nxt
    · obtain ⟨gs, hne, hall, hjoin, hout⟩ := ih (g ++ [nxt]) (by simp)
      refine ⟨gs, hne, hall, by simpa using hjoin, ?_⟩
      rw [mergeAux, if_pos h, ← combineGroup_snoc hg, hout]
    · obtain ⟨gs, hne, hall, hjoin, hout⟩ := ih [nxt] (by simp)
      refine ⟨g :: gs, by simp, ?_, by simp [hjoin], ?_⟩
      · intro x hx
        rcases List.mem_cons.mp hx with h1 | h2
        · rw [h1]; exact hg
        · exact hall x h2
      · rw [mergeAux, if_neg h, List.map_cons, ← combineGroup_single nxt, hout]

/-! ## Claims about `merge_segments_by_rule` -/

/-- Claim C1 (confirmed): the merge loses no text — for every input list of
segments and every parameter choice with `0 < min_duration < max_duration` and
`0 ≤ merge_gap`, the space-joined concatenation of the texts of the segments
returned by `merge_segments_by_rule` equals the space-joined concatenation of
the input segments' texts in their original order. -/
theorem claim_C1_merge_preserves_text (p : MergeParams) (segs : List TranscriptSegment)
    (hmin : 0 < p.minDuration) (hlt : p.minDuration < p.maxDuration)
    (hgap : 0 ≤ p.mergeGap) :
    joinTexts ((merge_segments_by_rule p segs).map (·.text)) =
      joinTexts (segs.map (·.text)) := by
  cases segs with
  | nil => rfl
  | cons s rest => simpa using mergeAux_joinTexts p s rest

/-- Witness for C1 at a concrete input. -/
theorem claim_C1_merge_preserves_text_witness :
    (0 : ℚ) < 8 ∧ (8 : ℚ) < 20 ∧ (0 : ℚ) ≤ 0.5 ∧
      joinTexts ((merge_segments_by_rule ⟨8, 20, 0.5⟩
          [⟨0, 3, "Hi".toList⟩, ⟨3, 5, "there".toList⟩]).map (·.text)) =
        joinTexts ([(⟨0, 3, "Hi".toList⟩ : TranscriptSegment),
          ⟨3, 5, "there".toList⟩].map (·.text)) :=
  ⟨by norm_num, by norm_num, by norm_num,
    claim_C1_merge_preserves_text ⟨8, 20, 0.5⟩ _ (by norm_num) (by norm_num) (by norm_num)⟩

/-- Claim C3 (confirmed): a segment whose trimmed text ends in one of the
sentence-final punctuation marks 。！？.!? is never the left half of a merge —
the merge decision is forced to `false` and the loop emits the running segment
to the output before the next segment is considered, for all gap/duration
parameter values. -/
theorem claim_C3_punctuation_boundary (p : MergeParams) (cur nxt : TranscriptSegment)
    (rest : List TranscriptSegment) (c : Char)
    (hlast : (pyStrip cur.text).getLast? = some c) (hmem : c ∈ sentenceEnders) :
    shouldMerge p cur nxt = false ∧
      mergeAux p cur (nxt :: rest) = cur :: mergeAux p nxt rest := by
  have hp : endsPunct cur.text = true := by
    unfold endsPunct
    rw [hlast]
    exact List.elem_eq_true_of_mem hmem
  have hs : shouldMerge p cur nxt = false := by
    unfold shouldMerge
    simp [hp]
  exact ⟨hs, by rw [mergeAux, if_neg (by simp [hs])]⟩

/-- Witness for C3 at a concrete input. -/
theorem claim_C3_punctuation_boundary_witness :
    (pyStrip ("ok.".toList)).getLast? = some '.' ∧ '.' ∈ sentenceEnders ∧
      (shouldMerge ⟨8, 20, 0.5⟩ ⟨0, 10, "ok.".toList⟩ ⟨10, 11, "next".toList⟩ = false ∧
        mergeAux ⟨8, 20, 0.5⟩ ⟨0, 10, "ok.".toList⟩ [⟨10, 11, "next".toList⟩] =
          (⟨0, 10, "ok.".toList⟩ : TranscriptSegment) ::
            mergeAux ⟨8, 20, 0.5⟩ ⟨10, 11, "next".toList⟩ []) :=
  ⟨by decide, by decide,
    claim_C3_punctuation_boundary ⟨8, 20, 0.5⟩ _ _ _ '.' (by decide) (by decide)⟩

/-- Evaluation of `merge_segments_by_rule` on the end-to-end example of the
specification: the code merges all three spans into one. -/
theorem merge_example_eval :
    merge_segments_by_rule ⟨8, 20, 0.5⟩
        [⟨0, 3, "Hi".toList⟩, ⟨3, 5, "there".toList⟩, ⟨5, 21, "ok.".toList⟩] =
      [⟨0, 21, "Hi there ok.".toList⟩] := by
  simp only [merge_segments_by_rule, mergeAux, shouldMerge, mergeTwo, endsPunct, pyStrip,
    sentenceEnders]
  norm_num
  decide

/-- Claim C4 (counterexample): on the segments (0,3,"Hi"), (3,5,"there"),
(5,21,"ok.") with min_duration 8, max_duration 20, merge_gap 0.5, the code does
not return the two segments the claim states: after the first merge the running
span (0,5) still has duration 5 < 8, so condition 1 of `should_merge` fires
again and the third span is merged as well. -/
theorem claim_C4_counterexample :
    merge_segments_by_rule ⟨8, 20, 0.5⟩
        [⟨0, 3, "Hi".toList⟩, ⟨3, 5, "there".toList⟩, ⟨5, 21, "ok.".toList⟩] ≠
      [⟨0, 5, "Hi there".toList⟩, ⟨5, 21, "ok.".toList⟩] := by
  rw [merge_example_eval]
  simp

/-- Claim C4 (amended): on the same input, `merge_segments_by_rule` returns the
single segment (0,21,"Hi there ok."): the first two spans merge because the
first is short, and the result (duration 5 < min_duration 8) merges with the
third span as well. -/
theorem claim_C4_amended_example : merge_segments_by_rule ⟨8, 20, 0.5⟩
      [⟨0, 3, "Hi".toList⟩, ⟨3, 5, "there".toList⟩, ⟨5, 21, "ok.".toList⟩] =
    [⟨0, 21, "Hi there ok.".toList⟩] :=
  merge_example_eval

/-- Claim C10 (confirmed): for every non-empty input, the merge returns a
non-empty list whose segments are the combinations of a partition of the input
into non-empty groups of consecutive segments: each output segment's start is
the start of the first input segment it was built from and its end is the end
of the last one; in particular the first output start equals the first input
start and the last output end equals the last input end. -/
theorem claim_C10_span_invariant (p : MergeParams) (segs : List TranscriptSegment)
    (h : segs ≠ []) :
    merge_segments_by_rule p segs ≠ [] ∧
      (∃ gs : List (List TranscriptSegment), gs ≠ [] ∧ (∀ g ∈ gs, g ≠ []) ∧
        gs.flatten = segs ∧ merge_segments_by_rule p segs = gs.map combineGroup) ∧
      (merge_segments_by_rule p segs).headI.start = segs.headI.start ∧
      (merge_segments_by_rule p segs).getLastI.«end» = segs.getLastI.«end» := by
  cases segs with
  | nil => exact absurd rfl h
  | cons s rest =>
    refine ⟨mergeAux_ne_nil p s rest, ?_, mergeAux_headI_start p s rest,
      mergeAux_getLastI_end p s rest⟩
    obtain ⟨gs, h1, h2, h3, h4⟩ := mergeAux_partition p rest [s] (by simp)
    exact ⟨gs, h1, h2, by simpa using h3, h4⟩

/-- Witness for C10 at a concrete input. -/
theorem claim_C10_span_invariant_witness :
    ([(⟨0, 1, "a".toList⟩ : TranscriptSegment), ⟨1, 2, "b".toList⟩] ≠ []) ∧
      (merge_segments_by_rule ⟨8, 20, 0.5⟩
          [⟨0, 1, "a".toList⟩, ⟨1, 2, "b".toList⟩] ≠ [] ∧
        (∃ gs : List (List TranscriptSegment), gs ≠ [] ∧ (∀ g ∈ gs, g ≠ []) ∧
          gs.flatten = [⟨0, 1, "a".toList⟩, ⟨1, 2, "b".toList⟩] ∧
          merge_segments_by_rule ⟨8, 20, 0.5⟩
              [⟨0, 1, "a".toList⟩, ⟨1, 2, "b".toList⟩] = gs.map combineGroup) ∧
        (merge_segments_by_rule ⟨8, 20, 0.5⟩
            [⟨0, 1, "a".toList⟩, ⟨1, 2, "b".toList⟩]).headI.start =
          ([(⟨0, 1, "a".toList⟩ : TranscriptSegment), ⟨1, 2, "b".toList⟩]).headI.start ∧
        (merge_segments_by_rule ⟨8, 20, 0.5⟩
            [⟨0, 1, "a".toList⟩, ⟨1, 2, "b".toList⟩]).getLastI.«end» =
          ([(⟨0, 1, "a".toList⟩ : TranscriptSegment), ⟨1, 2, "b".toList⟩]).getLastI.«end») :=
  ⟨by simp, claim_C10_span_invariant ⟨8, 20, 0.5⟩ _ (by simp)⟩

/-! ## `markdown_generator.py`: `_replace_image_marks`

The three `re.sub` passes are embedded as leftmost non-overlapping scanners.
Each `tryX` function matches the corresponding regular expression at the head
of the input and returns the capture groups together with the suffix after the
match; the `subXF` functions scan the whole input with explicit fuel. -/

/-- A Python `pathlib.Path`; the code only reads `.name`, the final component. -/
structure PyPath where
  name : List Char
deriving DecidableEq, Repr

/-- The `frame_mapping : Dict[str, Path]`, keyed by `MM:SS` timestamp strings. -/
abbrev FrameMap := List (List Char × PyPath)

/-- Python `timestamp in frame_mapping` / `frame_mapping[timestamp]`. -/
def fmLookup : FrameMap → List Char → Option PyPath
  | [], _ => none
  | (k, v) :: rest, key => if key = k then some v else fmLookup rest key

/-- Match `!\[([^\]]*)\]\(images/(\d{2}:\d{2})\.jpg\)` at the head of the
input; return (description group, `MM:SS` group, suffix after the match).
The greedy `[^\]]*` is followed by `\]`, so it is exactly the run of
non-`]` characters. -/
def tryCanonical (cs : List Char) : Option (List Char × List Char × List Char) := do
  let r1 ← stripLit ("![".toList) cs
  let desc := r1.takeWhile (· ≠ ']')
  let r2 ← stripLit ("](images/".toList) (r1.dropWhile (· ≠ ']'))
  match r2 with
  | d1 :: d2 :: c :: d3 :: d4 :: r3 =>
    if d1.isDigit && d2.isDigit && c = ':' && d3.isDigit && d4.isDigit then do
      let rest ← stripLit (".jpg)".toList) r3
      pure (desc, [d1, d2, c, d3, d4], rest)
    else none
  | _ => none

/-- Match `!\[([^\]]*)\]\(images/frame_(\d+)\.jpg\)` at the head of the input;
return (description group, digits group, suffix after the match).  The greedy
`\d+` is followed by `\.`, so it is exactly the maximal run of digits. -/
def tryLegacy (cs : List Char) : Option (List Char × List Char × List Char) := do
  let r1 ← stripLit ("![".toList) cs
  let desc := r1.takeWhile (· ≠ ']')
  let r2 ← stripLit ("](images/frame_".toList) (r1.dropWhile (· ≠ ']'))
  let ds := r2.takeWhile (·.isDigit)
  if ds = [] then none
  else do
    let rest ← stripLit (".jpg)".toList) (r2.dropWhile (·.isDigit))
    pure (desc, ds, rest)

/-- Match `\[IMAGE:\s*(\d{2}:\d{2})\]` at the head of the input; return
(`MM:SS` group, suffix after the match).  The greedy `\s*` is followed by
`\d`, so it is exactly the maximal run of whitespace. -/
def tryInline (cs : List Char) : Option (List Char × List Char) := do
  let r1 ← stripLit ("[IMAGE:".toList) cs
  match r1.dropWhile isPySpace with
  | d1 :: d2 :: c :: d3 :: d4 :: b :: r2 =>
    if d1.isDigit && d2.isDigit && c = ':' && d3.isDigit && d4.isDigit && b = ']' then
      pure ([d1, d2, c, d3, d4], r2)
    else none
  | _ => none

/-- Result of one substitution pass: the rewritten text, the number of image
references emitted, and the number of unresolved-comment markers emitted (one
diagnostic warning is printed per comment). -/
structure SubResult where
  text : List Char
  images : Nat
  comments : Nat
deriving DecidableEq, Repr

/-- First pass of `_replace_image_marks`: `re.sub` of the legacy pattern with
replacement `![\1](images/frame_\2.jpg)` — the replacement recomposes the
match verbatim. -/
def subLegacyF : Nat → List Char → List Char
  | 0, cs => cs
  | fuel + 1, cs =>
    match tryLegacy cs with
    | some (desc, ds, rest) =>
      "![".toList ++ desc ++ "](images/frame_".toList ++ ds ++ ".jpg)".toList ++
        subLegacyF fuel rest
    | none =>
      match cs with
      | [] => []
      | c :: rest => c :: subLegacyF fuel rest

/-- Second pass of `_replace_image_marks`: resolve each canonical
`images/MM:SS.jpg` reference through the frame map (colon key), else emit a
comment marker and a warning. -/
def subCanonicalF (fm : FrameMap) : Nat → List Char → SubResult
  | 0, cs => ⟨cs, 0, 0⟩
  | fuel + 1, cs =>
    match tryCanonical cs with
    | some (desc, ts, rest) =>
      let r := subCanonicalF fm fuel rest
      match fmLookup fm ts with
      | some p =>
        ⟨"![".toList ++ desc ++ "](images/".toList ++ p.name ++ ")".toList ++ r.text,
          r.images + 1, r.comments⟩
      | none =>
        ⟨"<!-- [IMAGE: ".toList ++ ts ++ "] -->".toList ++ r.text,
          r.images, r.comments + 1⟩
    | none =>
      match cs with
      | [] => ⟨[], 0, 0⟩
      | c :: rest =>
        let r := subCanonicalF fm fuel rest
        ⟨c :: r.text, r.images, r.comments⟩

/-- Third pass of `_replace_image_marks`: resolve each `[IMAGE: MM:SS]` marker
through the frame map, else emit a comment marker and a warning. -/
def subInlineF (fm : FrameMap) : Nat → List Char → SubResult
  | 0, cs => ⟨cs, 0, 0⟩
  | fuel + 1, cs =>
    match tryInline cs with
    | some (ts, rest) =>
      let r := subInlineF fm fuel rest
      match fmLookup fm ts with
      | some p =>
        ⟨"![".toList ++ ts ++ "](images/".toList ++ p.name ++ ")\n*".toList ++ ts ++
            "*".toList ++ r.text,
          r.images + 1, r.comments⟩
      | none =>
        ⟨"<!-- [IMAGE: ".toList ++ ts ++ "] -->".toList ++ r.text,
          r.images, r.comments + 1⟩
    | none =>
      match cs with
      | [] => ⟨[], 0, 0⟩
      | c :: rest =>
        let r := subInlineF fm fuel rest
        ⟨c :: r.text, r.images, r.comments⟩

/-- Count of canonical `![..](images/MM:SS.jpg)` markers recognized by the
leftmost non-overlapping scan (the number of matches `re.sub` rewrites). -/
def countCanonicalF : Nat → List Char → Nat
  | 0, _ => 0
  | fuel + 1, cs =>
    match tryCanonical cs with
    | some (_, _, rest) => countCanonicalF fuel rest + 1
    | none =>
      match cs with
      | [] => 0
      | _ :: rest => countCanonicalF fuel rest

/-- Count of inline `[IMAGE: MM:SS]` markers recognized by the leftmost
non-overlapping scan. -/
def countInlineF : Nat → List Char → Nat
  | 0, _ => 0
  | fuel + 1, cs =>
    match tryInline cs with
    | some (_, rest) => countInlineF fuel rest + 1
    | none =>
      match cs with
      | [] => 0
      | _ :: rest => countInlineF fuel rest

/-- `re.sub` over the legacy pattern (fuel instantiated). -/
def subLegacy (cs : List Char) : List Char := subLegacyF cs.length cs

/-- `re.sub` over the canonical timestamp pattern (fuel instantiated). -/
def subCanonical (fm : FrameMap) (cs : List Char) : SubResult :=
  subCanonicalF fm cs.length cs

/-- `re.sub` over the inline marker pattern (fuel instantiated). -/
def subInline (fm : FrameMap) (cs : List Char) : SubResult :=
  subInlineF fm cs.length cs

/-- Markers of the canonical form in a text. -/
def countCanonical (cs : List Char) : Nat := countCanonicalF cs.length cs

/-- Markers of the inline form in a text. -/
def countInline (cs : List Char) : Nat := countInlineF cs.length cs

/-- `MarkdownGenerator._replace_image_marks`: the three passes in source
order, with the image and comment emissions of the two resolving passes
accumulated. -/
def replace_image_marks (fm : FrameMap) (content : List Char) : SubResult :=
  let t1 := subLegacy content
  let r2 := subCanonical fm t1
  let r3 := subInline fm r2.text
  ⟨r3.text, r2.images + r3.images, r2.comments + r3.comments⟩

/-- The character class `[<>:"/\\|?*]` of `_sanitize_filename`. -/
def illegalChars : List Char := ['<', '>', ':', '"', '/', '\\', '|', '?', '*']

/-- The first statement of `_sanitize_filename`: `re.sub` of the character
class with `'_'` — each matched character is a single character, so the
substitution is a pointwise map. -/
def subIllegal (cs : List Char) : List Char :=
  cs.map fun c => if illegalChars.contains c then '_' else c

/-- `MarkdownGenerator._sanitize_filename`. -/
def sanitize_filename (cs : List Char) : List Char :=
  let f := subIllegal cs
  if 100 < f.length then f.take 100 else f

/-! ## `llm_processor.py`: `_extract_image_plans_from_content` -/

/-- An `ImagePlan` (only the fields the claim mentions). -/
structure ImagePlan where
  timestamp : List Char
  description : List Char
deriving DecidableEq, Repr

/-- `re.findall` of the canonical pattern: the (description, timestamp) group
pairs of the leftmost non-overlapping matches. -/
def findCanonicalPairsF : Nat → List Char → List (List Char × List Char)
  | 0, _ => []
  | fuel + 1, cs =>
    match tryCanonical cs with
    | some (desc, ts, rest) => (desc, ts) :: findCanonicalPairsF fuel rest
    | none =>
      match cs with
      | [] => []
      | _ :: rest => findCanonicalPairsF fuel rest

/-- `re.findall` of the legacy pattern: the (description, digits) group pairs
of the leftmost non-overlapping matches. -/
def findLegacyPairsF : Nat → List Char → List (List Char × List Char)
  | 0, _ => []
  | fuel + 1, cs =>
    match tryLegacy cs with
    | some (desc, ds, rest) => (desc, ds) :: findLegacyPairsF fuel rest
    | none =>
      match cs with
      | [] => []
      | _ :: rest => findLegacyPairsF fuel rest

/-- `re.findall` wrappers with the fuel instantiated. -/
def findCanonicalPairs (cs : List Char) : List (List Char × List Char) :=
  findCanonicalPairsF cs.length cs

/-- Leftmost non-overlapping legacy matches of a text. -/
def findLegacyPairs (cs : List Char) : List (List Char × List Char) :=
  findLegacyPairsF cs.length cs

/-- `LLMProcessor._extract_image_plans_from_content`: prefer the canonical
timestamp matches; if none, fall back to the legacy numeric form with the
index normalized to a zero-padded 3-digit string (`f"frame_{int(num):03d}"`). -/
def extract_image_plans_from_content (content : List Char) : List ImagePlan :=
  let plans := (findCanonicalPairs content).map fun pr => ImagePlan.mk pr.2 pr.1
  match plans with
  | [] =>
    (findLegacyPairs content).map fun pr =>
      ImagePlan.mk ("frame_".toList ++ pad3 (digitsVal pr.2)) pr.1
  | _ => plans

/-! ## Lemmas about the substitution passes -/

theorem stripLit_eq {p cs r : List Char} (h : stripLit p cs = some r) : cs = p ++ r := by
  induction p generalizing cs with
  | nil =>
    simp only [stripLit, Option.some.injEq] at h
    simp [h]
  | cons a p ih =>
    cases cs with
    | nil => simp [stripLit] at h
    | cons c cs' =>
      by_cases hca : c = a
      · rw [stripLit, if_pos hca] at h
        rw [List.cons_append, hca, ih h]
      · rw [stripLit, if_neg hca] at h
        exact absurd h (by simp)

/-- Unfolding equation of `subLegacyF` at positive fuel. -/
theorem subLegacyF_succ (fuel : Nat) (cs : List Char) :
    subLegacyF (fuel + 1) cs =
      (match tryLegacy cs with
        | some (d, ds, rest) =>
          "![".toList ++ d ++ "](images/frame_".toList ++ ds ++ ".jpg)".toList ++
            subLegacyF fuel rest
        | none =>
          match cs with
          | [] => []
          | c :: rest => c :: subLegacyF fuel rest) := rfl

/-- Unfolding equation of `subCanonicalF` at positive fuel. -/
theorem subCanonicalF_succ (fm : FrameMap) (fuel : Nat) (cs : List Char) :
    subCanonicalF fm (fuel + 1) cs =
      (match tryCanonical cs with
        | some (desc, ts, rest) =>
          let r := subCanonicalF fm fuel rest
          match fmLookup fm ts with
          | some p =>
            ⟨"![".toList ++ desc ++ "](images/".toList ++ p.name ++ ")".toList ++ r.text,
              r.images + 1, r.comments⟩
          | none =>
            ⟨"<!-- [IMAGE: ".toList ++ ts ++ "] -->".toList ++ r.text,
              r.images, r.comments + 1⟩
        | none =>
          match cs with
          | [] => ⟨[], 0, 0⟩
          | c :: rest =>
            let r := subCanonicalF fm fuel rest
            ⟨c :: r.text, r.images, r.comments⟩) := rfl

/-- Unfolding equation of `subInlineF` at positive fuel. -/
theorem subInlineF_succ (fm : FrameMap) (fuel : Nat) (cs : List Char) :
    subInlineF fm (fuel + 1) cs =
      (match tryInline cs with
        | some (ts, rest) =>
          let r := subInlineF fm fuel rest
          match fmLookup fm ts with
          | some p =>
            ⟨"![".toList ++ ts ++ "](images/".toList ++ p.name ++ ")\n*".toList ++ ts ++
                "*".toList ++ r.text,
              r.images + 1, r.comments⟩
          | none =>
            ⟨"<!-- [IMAGE: ".toList ++ ts ++ "] -->".toList ++ r.text,
              r.images, r.comments + 1⟩
        | none =>
          match cs with
          | [] => ⟨[], 0, 0⟩
          | c :: rest =>
            let r := subInlineF fm fuel rest
            ⟨c :: r.text, r.images, r.comments⟩) := rfl

/-- Unfolding equation of `countCanonicalF` at positive fuel. -/
theorem countCanonicalF_succ (fuel : Nat) (cs : List Char) :
    countCanonicalF (fuel + 1) cs =
      (match tryCanonical cs with
        | some (_, _, rest) => countCanonicalF fuel rest + 1
        | none =>
          match cs with
          | [] => 0
          | _ :: rest => countCanonicalF fuel rest) := rfl

/-- Unfolding equation of `countInlineF` at positive fuel. -/
theorem countInlineF_succ (fuel : Nat) (cs : List Char) :
    countInlineF (fuel + 1) cs =
      (match tryInline cs with
        | some (_, rest) => countInlineF fuel rest + 1
        | none =>
          match cs with
          | [] => 0
          | _ :: rest => countInlineF fuel rest) := rfl

theorem tryLegacy_inv {cs d ds rest : List Char} (h : tryLegacy cs = some (d, ds, rest)) :
    cs = "![".toList ++ d ++ "](images/frame_".toList ++ ds ++ ".jpg)".toList ++ rest := by
  unfold tryLegacy at h
  cases h1 : stripLit ("![".toList) cs with
  | none => rw [h1] at h; exact absurd h (by simp)
  | some r1 =>
    rw [h1] at h
    simp only [Option.bind_eq_bind, Option.some_bind] at h
    cases h2 : stripLit ("](images/frame_".toList) (r1.dropWhile (· ≠ ']')) with
    | none => rw [h2] at h; exact absurd h (by simp)
    | some r2 =>
      rw [h2] at h
      simp only [Option.some_bind] at h
      by_cases hds : r2.takeWhile (·.isDigit) = []
      · rw [if_pos hds] at h
        exact absurd h (by simp)
      · rw [if_neg hds] at h
        cases h3 : stripLit (".jpg)".toList) (r2.dropWhile (·.isDigit)) with
        | none => rw [h3] at h; exact absurd h (by simp)
        | some r3 =>
          rw [h3] at h
          simp only [Option.some_bind, Option.pure_def, Option.some.injEq,
            Prod.mk.injEq] at h
          obtain ⟨hd, hds2, hrest⟩ := h
          have e1 : cs = "![".toList ++ r1 := stripLit_eq h1
          have e2 : r1 = r1.takeWhile (· ≠ ']') ++ r1.dropWhile (· ≠ ']') :=
            (List.takeWhile_append_dropWhile _ _).symm
          have e3 : r1.dropWhile (· ≠ ']') = "](images/frame_".toList ++ r2 := stripLit_eq h2
          have e4 : r2 = r2.takeWhile (·.isDigit) ++ r2.dropWhile (·.isDigit) :=
            (List.takeWhile_append_dropWhile _ _).symm
          have e5 : r2.dropWhile (·.isDigit) = ".jpg)".toList ++ r3 := stripLit_eq h3
          subst hd hds2 hrest
          conv_lhs => rw [e1, e2, e3, e4, e5]
          simp [List.append_assoc]

/-- The legacy pass is the identity: its replacement recomposes each match
verbatim, for every fuel value. -/
theorem subLegacyF_id (fuel : Nat) : ∀ cs : List Char, subLegacyF fuel cs = cs := by
  induction fuel with
  | zero => intro cs; rfl
  | succ fuel ih =>
    intro cs
    cases h : tryLegacy cs with
    | some v =>
      obtain ⟨d, ds, rest⟩ := v
      simp only [subLegacyF_succ, h]
      rw [ih rest]
      exact (tryLegacy_inv h).symm
    | none =>
      cases cs with
      | nil => rfl
      | cons c rest =>
        simp only [subLegacyF_succ, h]
        rw [ih rest]

/-- Every canonical marker recognized by the second pass produces exactly one
image-or-comment output: images + comments equals the match count, for every
fuel value. -/
theorem subCanonicalF_outputs (fm : FrameMap) (fuel : Nat) :
    ∀ cs : List Char,
      (subCanonicalF fm fuel cs).images + (subCanonicalF fm fuel cs).comments =
        countCanonicalF fuel cs := by
  induction fuel with
  | zero => intro cs; rfl
  | succ fuel ih =>
    intro cs
    cases h : tryCanonical cs with
    | some v =>
      obtain ⟨d, ts, rest⟩ := v
      have hr := ih rest
      cases hl : fmLookup fm ts with
      | some p =>
        simp only [subCanonicalF_succ, countCanonicalF_succ, h, hl]
        show (subCanonicalF fm fuel rest).images + 1 + (subCanonicalF fm fuel rest).comments =
          countCanonicalF fuel rest + 1
        omega
      | none =>
        simp only [subCanonicalF_succ, countCanonicalF_succ, h, hl]
        show (subCanonicalF fm fuel rest).images + ((subCanonicalF fm fuel rest).comments + 1) =
          countCanonicalF fuel rest + 1
        omega
    | none =>
      cases cs with
      | nil => rfl
      | cons c rest =>
        have hr := ih rest
        simp only [subCanonicalF_succ, countCanonicalF_succ, h]
        show (subCanonicalF fm fuel rest).images + (subCanonicalF fm fuel rest).comments =
          countCanonicalF fuel rest
        exact hr

/-- Every inline marker recognized by the third pass produces exactly one
image-or-comment output: images + comments equals the match count, for every
fuel value. -/
theorem subInlineF_outputs (fm : FrameMap) (fuel : Nat) :
    ∀ cs : List Char,
      (subInlineF fm fuel cs).images + (subInlineF fm fuel cs).comments =
        countInlineF fuel cs := by
  induction fuel with
  | zero => intro cs; rfl
  | succ fuel ih =>
    intro cs
    cases h : tryInline cs with
    | some v =>
      obtain ⟨ts, rest⟩ := v
      have hr := ih rest
      cases hl : fmLookup fm ts with
      | some p =>
        simp only [subInlineF_succ, countInlineF_succ, h, hl]
        show (subInlineF fm fuel rest).images + 1 + (subInlineF fm fuel rest).comments =
          countInlineF fuel rest + 1
        omega
      | none =>
        simp only [subInlineF_succ, countInlineF_succ, h, hl]
        show (subInlineF fm fuel rest).images + ((subInlineF fm fuel rest).comments + 1) =
          countInlineF fuel rest + 1
        omega
    | none =>
      cases cs with
      | nil => rfl
      | cons c rest =>
        have hr := ih rest
        simp only [subInlineF_succ, countInlineF_succ, h]
        show (subInlineF fm fuel rest).images + (subInlineF fm fuel rest).comments =
          countInlineF fuel rest
        exact hr

/-- Length of the zero-padded index: always at least 3 digits. -/
theorem three_le_pad3_length (n : Nat) : 3 ≤ (pad3 n).length := by
  unfold pad3
  simp only [List.length_append, List.length_replicate]
  omega

/-! ## Claims about `_replace_image_marks` and friends -/

/-- Claim C2 (counterexample): with the empty frame map, the single canonical
marker of `![a](images/01:30.jpg)` produces two image-or-comment outputs, not
one: the comment emitted by the canonical pass is itself re-recognized by the
inline pass and wrapped (and warned about) a second time, so the output count
does not equal the number of recognized markers in the input. -/
theorem claim_C2_counterexample :
    ¬ ((replace_image_marks [] ("![a](images/01:30.jpg)".toList)).images +
        (replace_image_marks [] ("![a](images/01:30.jpg)".toList)).comments =
      countCanonical ("![a](images/01:30.jpg)".toList) +
        countInline ("![a](images/01:30.jpg)".toList)) := by decide

/-- Claim C2 (amended): every marker recognized by a substitution pass
resolves to exactly one image-or-comment output — none is silently deleted —
so the total output count equals the canonical markers in the input text plus
the inline markers in the intermediate text after the canonical pass (the
latter can exceed the inline markers of the input, because the comment left
for an unresolved canonical marker is itself re-recognized by the inline
pass). -/
theorem claim_C2_amended_outputs (fm : FrameMap) (content : List Char) :
    (replace_image_marks fm content).images + (replace_image_marks fm content).comments =
      countCanonical (subLegacy content) +
        countInline (subCanonical fm (subLegacy content)).text := by
  have h1 := subCanonicalF_outputs fm (subLegacy content).length (subLegacy content)
  have h2 := subInlineF_outputs fm (subCanonical fm (subLegacy content)).text.length
    (subCanonical fm (subLegacy content)).text
  show (subCanonical fm (subLegacy content)).images +
      (subInline fm (subCanonical fm (subLegacy content)).text).images +
      ((subCanonical fm (subLegacy content)).comments +
        (subInline fm (subCanonical fm (subLegacy content)).text).comments) =
    countCanonical (subLegacy content) + countInline (subCanonical fm (subLegacy content)).text
  unfold subCanonical at h2
  unfold subCanonical subInline countCanonical countInline
  omega

/-- Claim C5 (counterexample): with an empty frame map the reference
`![a](images/01:30.jpg)` does not resolve to the comment
`<!-- [IMAGE: 01:30] -->`: the inline pass re-matches the timestamp inside
that comment and wraps it again. -/
theorem claim_C5_counterexample :
    (replace_image_marks [] ("![a](images/01:30.jpg)".toList)).text ≠
      "<!-- [IMAGE: 01:30] -->".toList := by decide

/-- Claim C5 (amended): `![a](images/01:30.jpg)` with the mapping
`{"01:30" ↦ 01_30.jpg}` resolves to `![a](images/01_30.jpg)`; with the empty
mapping it resolves to the doubly wrapped comment
`<!-- <!-- [IMAGE: 01:30] --> -->` and two warnings are emitted (one by the
canonical pass and one by the inline pass re-processing the comment). -/
theorem claim_C5_amended_resolution :
    (replace_image_marks [("01:30".toList, ⟨"01_30.jpg".toList⟩)]
        ("![a](images/01:30.jpg)".toList)).text = "![a](images/01_30.jpg)".toList ∧
      (replace_image_marks [] ("![a](images/01:30.jpg)".toList)).text =
        "<!-- <!-- [IMAGE: 01:30] --> -->".toList ∧
      (replace_image_marks [] ("![a](images/01:30.jpg)".toList)).comments = 2 := by
  decide

/-- Claim C8 (counterexample): the first substitution pass of
`_replace_image_marks` does not zero-pad the legacy index: its replacement
recomposes the match verbatim, so `frame_1` stays `frame_1` instead of
becoming `frame_001`. -/
theorem claim_C8_counterexample :
    subLegacy ("![a](images/frame_1.jpg)".toList) ≠
      "![a](images/frame_001.jpg)".toList := by decide

/-- Claim C8 (amended): the first substitution pass of `_replace_image_marks`
leaves every text unchanged (the replacement template recomposes each legacy
match verbatim, no normalization happens), while
`_extract_image_plans_from_content`, when it falls back to the legacy form,
does emit `ImagePlan` timestamps `frame_NNN` with the index zero-padded to at
least 3 digits. -/
theorem claim_C8_amended_normalization :
    (∀ cs : List Char, subLegacy cs = cs) ∧
      ∀ (content : List Char) (plan : ImagePlan),
        findCanonicalPairs content = [] →
        plan ∈ extract_image_plans_from_content content →
        ∃ n : Nat, plan.timestamp = "frame_".toList ++ pad3 n ∧ 3 ≤ (pad3 n).length := by
  constructor
  · intro cs
    exact subLegacyF_id cs.length cs
  · intro content plan hnone hmem
    unfold extract_image_plans_from_content at hmem
    rw [hnone] at hmem
    simp only [List.map_nil] at hmem
    obtain ⟨pr, hpr, hplan⟩ := List.mem_map.mp hmem
    exact ⟨digitsVal pr.2, by rw [← hplan], three_le_pad3_length _⟩

/-- Witness for the fallback half of C8 at a concrete input. -/
theorem claim_C8_amended_normalization_witness :
    findCanonicalPairs ("![a](images/frame_1.jpg)".toList) = [] ∧
      (⟨"frame_001".toList, "a".toList⟩ : ImagePlan) ∈
        extract_image_plans_from_content ("![a](images/frame_1.jpg)".toList) ∧
      ∃ n : Nat,
        (⟨"frame_001".toList, "a".toList⟩ : ImagePlan).timestamp =
          "frame_".toList ++ pad3 n ∧ 3 ≤ (pad3 n).length :=
  ⟨by decide, by decide,
    claim_C8_amended_normalization.2 ("![a](images/frame_1.jpg)".toList)
      ⟨"frame_001".toList, "a".toList⟩ (by decide) (by decide)⟩

/-- The claim's reading of `_sanitize_filename` for the refinement comparison,
following the specification's words: the title stripped of (that is, with each
occurrence removed of) the characters from the illegal set, truncated to 100
characters. -/
def sanitizeSpecStripped (cs : List Char) : List Char :=
  (cs.filter fun c => !illegalChars.contains c).take 100

/-- Claim C9 (counterexample): `_sanitize_filename` does not strip the illegal
characters, it replaces each of them with an underscore: on `a<b` the code
yields `a_b` while the claim's stripping yields `ab`. -/
theorem claim_C9_counterexample :
    sanitize_filename ("a<b".toList) = "a_b".toList ∧
      sanitizeSpecStripped ("a<b".toList) = "ab".toList ∧
      sanitize_filename ("a<b".toList) ≠ sanitizeSpecStripped ("a<b".toList) := by
  decide

/-- Claim C9 (amended): `_sanitize_filename` replaces each of the characters
`<>:"/\|?*` with an underscore and truncates the result to at most 100
characters; consequently the output has length at most 100 and contains none
of the illegal characters. -/
theorem claim_C9_amended_sanitize (cs : List Char) :
    sanitize_filename cs = (subIllegal cs).take 100 ∧
      (sanitize_filename cs).length ≤ 100 ∧
      ∀ c ∈ sanitize_filename cs, illegalChars.contains c = false := by
  have hsan : sanitize_filename cs = (subIllegal cs).take 100 := by
    unfold sanitize_filename
    by_cases h : 100 < (subIllegal cs).length
    · rw [if_pos h]
    · rw [if_neg h, List.take_of_length_le (Nat.le_of_not_lt h)]
  refine ⟨hsan, ?_, ?_⟩
  · rw [hsan]
    simp only [List.length_take]
    omega
  · intro c hc
    rw [hsan] at hc
    have hc2 : c ∈ subIllegal cs := List.mem_of_mem_take hc
    obtain ⟨a, ha, hca⟩ := List.mem_map.mp hc2
    by_cases hil : illegalChars.contains a = true
    · have hmem : a ∈ illegalChars := by simpa using hil
      have hcu : c = '_' := by rw [← hca]; simp [hmem]
      rw [hcu]
      decide
    · have hmem : a ∉ illegalChars := by simpa using hil
      have hcu : c = a := by rw [← hca]; simp [hmem]
      rw [hcu]
      simpa using hil

/-- Witness for the no-illegal-characters half of C9 at a concrete input. -/
theorem claim_C9_amended_sanitize_witness :
    ('_' ∈ sanitize_filename ("a<b".toList)) ∧ illegalChars.contains '_' = false :=
  ⟨by decide, (claim_C9_amended_sanitize ("a<b".toList)).2.2 '_' (by decide)⟩

/-! ## `cli.py`: task numbering and the retry loop

Directory state is modelled as the list of subdirectory names (as `List
Char`) of the base directory; the transcriber handle as an `Option Nat`
(`None` = not created yet).  The pipeline stages of `run_conversion` after
the task-folder creation are abstracted by an outcome oracle, which is all
the retry claims depend on. -/

/-- The id the source extracts from one directory name:
`d.name.split("_")[1]` must be a non-empty digit string
(`.isdigit()`), and its `int` value is used. -/
def taskIdOfSplit (name : List Char) : Option Nat :=
  match (splitUnderscore name)[1]? with
  | some s => if s ≠ [] ∧ s.all (·.isDigit) = true then some (digitsVal s) else none
  | none => none

/-- `get_next_task_id`: scan the names starting with `task_`; if none, 1;
else collect the parsed ids; if none parse, 1; else max + 1. -/
def get_next_task_id (dirs : List (List Char)) : Nat :=
  if dirs.filter (fun d => ("task_".toList).isPrefixOf d) = [] then 1
  else if (dirs.filter (fun d => ("task_".toList).isPrefixOf d)).filterMap taskIdOfSplit = []
    then 1
  else ((dirs.filter (fun d => ("task_".toList).isPrefixOf d)).filterMap
    taskIdOfSplit).foldr max 0 + 1

/-- The name `f"task_{task_id}"` of the folder `create_task_folder` creates. -/
def task_folder_name (dirs : List (List Char)) : List Char :=
  "task_".toList ++ natDigits (get_next_task_id dirs)

/-- `create_task_folder`: the created directory name and the new state of the
base directory. -/
def create_task_folder (dirs : List (List Char)) : List Char × List (List Char) :=
  (task_folder_name dirs, task_folder_name dirs :: dirs)

/-- The claim's reading of the scanned names, for the refinement comparison:
a directory counts only when it is literally of the form `task_<n>` —
the prefix `task_` followed by a non-empty string of digits. -/
def specTaskN (name : List Char) : Option Nat :=
  match stripLit ("task_".toList) name with
  | some ds => if ds ≠ [] ∧ ds.all (·.isDigit) = true then some (digitsVal ds) else none
  | none => none

/-- The claim's next-task-id, for the refinement comparison: max + 1 over the
numeric suffixes of the `task_<n>` subdirectories, 1 when there are none. -/
def spec_next_task_id (dirs : List (List Char)) : Nat :=
  if dirs.filterMap specTaskN = [] then 1
  else (dirs.filterMap specTaskN).foldr max 0 + 1

/-- Outcome oracle for one `run_conversion` call: whether the pipeline
succeeded, and the transcriber handle the call returns. -/
structure ConvOutcome where
  ok : Bool
  transOut : Option Nat

/-- Record of one `run_conversion` invocation made by the retry loop. -/
structure CallRec where
  transIn : Option Nat
  ok : Bool
  transOut : Option Nat
  fsBefore : List (List Char)
  taskDir : Option (List Char)

/-- `run_conversion` at the granularity the retry claims need: when the
settings are configured it creates a fresh numbered task directory before the
pipeline runs, whose success and returned transcriber handle the oracle
decides; when unconfigured it fails early, before any directory is created,
returning the transcriber it received. -/
def run_conversion (configured : Bool) (dirs : List (List Char)) (trans : Option Nat)
    (outcome : ConvOutcome) : Bool × Option Nat × List (List Char) × Option (List Char) :=
  if configured then
    (outcome.ok, outcome.transOut, (create_task_folder dirs).2, some (create_task_folder dirs).1)
  else
    (false, trans, dirs, none)

/-- The `while attempt <= max_retries` loop of `run_conversion_with_retry`:
`fuel` is the number of attempts still allowed, `k` indexes the oracle for
the current attempt.  Returns the trace of invocation records, the final
success flag and the final transcriber handle.  On failure the user is asked
whether to retry only while attempts remain (`fuel ≠ 0` after this one). -/
def retryAux (configured : Bool) (outcomes : Nat → ConvOutcome) (userRetry : Nat → Bool) :
    Nat → Nat → Option Nat → List (List Char) → List CallRec × Bool × Option Nat
  | 0, _, t, _ => ([], false, t)
  | fuel + 1, k, t, dirs =>
    let r := run_conversion configured dirs t (outcomes k)
    let callRec : CallRec := ⟨t, r.1, r.2.1, dirs, r.2.2.2⟩
    if r.1 then ([callRec], true, r.2.1)
    else if fuel = 0 then ([callRec], false, r.2.1)
    else if userRetry k then
      (callRec :: (retryAux configured outcomes userRetry fuel (k + 1) r.2.1 r.2.2.1).1,
        (retryAux configured outcomes userRetry fuel (k + 1) r.2.1 r.2.2.1).2.1,
        (retryAux configured outcomes userRetry fuel (k + 1) r.2.1 r.2.2.1).2.2)
    else ([callRec], false, r.2.1)

/-- The default `max_retries` of `run_conversion_with_retry`. -/
def defaultMaxRetries : Nat := 3

/-- `run_conversion_with_retry` (attempt starts at 1, so `fuel = max_retries`). -/
def run_conversion_with_retry (configured : Bool) (outcomes : Nat → ConvOutcome)
    (userRetry : Nat → Bool) (trans : Option Nat) (dirs : List (List Char))
    (maxRetries : Nat) : List CallRec × Bool × Option Nat :=
  retryAux configured outcomes userRetry maxRetries 0 trans dirs

/-! ## Lemmas about task numbering -/

theorem digitChar_isDigit {n : Nat} (h : n < 10) : (digitChar n).isDigit = true := by
  interval_cases n <;> decide

theorem digitVal_digitChar {n : Nat} (h : n < 10) : digitVal (digitChar n) = n := by
  interval_cases n <;> decide

theorem digitsVal_concat (l : List Char) (c : Char) :
    digitsVal (l ++ [c]) = digitsVal l * 10 + digitVal c := by
  simp [digitsVal, List.foldl_append]

/-- For sufficient fuel, the decimal representation is a non-empty digit
string whose value is the number itself. -/
theorem natDigitsF_spec : ∀ fuel n, n ≤ fuel →
    natDigitsF fuel n ≠ [] ∧ (∀ c ∈ natDigitsF fuel n, c.isDigit = true) ∧
      digitsVal (natDigitsF fuel n) = n := by
  intro fuel
  induction fuel with
  | zero =>
    intro n hn
    have h0 : n = 0 := Nat.le_zero.mp hn
    subst h0
    refine ⟨by simp [natDigitsF], ?_, by decide⟩
    intro c hc
    simp only [natDigitsF, List.mem_singleton] at hc
    rw [hc]
    decide
  | succ fuel ih =>
    intro n hn
    by_cases h10 : n < 10
    · refine ⟨by simp [natDigitsF, h10], ?_, ?_⟩
      · intro c hc
        simp only [natDigitsF, if_pos h10, List.mem_singleton] at hc
        rw [hc]
        exact digitChar_isDigit h10
      · simp only [natDigitsF, if_pos h10]
        show digitsVal [digitChar n] = n
        simp [digitsVal, digitVal_digitChar h10]
    · have hd : n / 10 ≤ fuel := by omega
      obtain ⟨ih1, ih2, ih3⟩ := ih (n / 10) hd
      have hm10 : n % 10 < 10 := Nat.mod_lt _ (by omega)
      refine ⟨by simp [natDigitsF, h10], ?_, ?_⟩
      · intro c hc
        simp only [natDigitsF, if_neg h10, List.mem_append, List.mem_singleton] at hc
        rcases hc with hc | hc
        · exact ih2 c hc
        · rw [hc]
          exact digitChar_isDigit hm10
      · simp only [natDigitsF, if_neg h10]
        rw [digitsVal_concat, ih3, digitVal_digitChar hm10]
        omega

theorem natDigits_spec (n : Nat) :
    natDigits n ≠ [] ∧ (∀ c ∈ natDigits n, c.isDigit = true) ∧
      digitsVal (natDigits n) = n :=
  natDigitsF_spec n n le_rfl

theorem splitUnderscore_no_underscore :
    ∀ l : List Char, (∀ c ∈ l, c ≠ '_') → splitUnderscore l = [l] := by
  intro l
  induction l with
  | nil => intro _; rfl
  | cons c t ih =>
    intro h
    have ht := ih fun x hx => h x (List.mem_cons_of_mem c hx)
    have hc : c ≠ '_' := h c (List.mem_cons_self c t)
    simp [splitUnderscore, ht, hc]

theorem splitUnderscore_task (l : List Char) (h : ∀ c ∈ l, c ≠ '_') :
    splitUnderscore ("task_".toList ++ l) = ["task".toList, l] := by
  have h1 : splitUnderscore l = [l] := splitUnderscore_no_underscore l h
  show splitUnderscore ('t' :: 'a' :: 's' :: 'k' :: '_' :: l) = _
  simp [splitUnderscore, h1]

/-- Parsing recovers the id from a well-formed task folder name. -/
theorem taskIdOfSplit_taskName (n : Nat) :
    taskIdOfSplit ("task_".toList ++ natDigits n) = some n := by
  obtain ⟨hne, hdig, hval⟩ := natDigits_spec n
  have hnu : ∀ c ∈ natDigits n, c ≠ '_' := by
    intro c hc he
    have hd := hdig c hc
    rw [he] at hd
    exact absurd hd (by decide)
  unfold taskIdOfSplit
  rw [splitUnderscore_task _ hnu]
  show (if natDigits n ≠ [] ∧ (natDigits n).all (·.isDigit) = true
    then some (digitsVal (natDigits n)) else none) = some n
  rw [if_pos ⟨hne, List.all_eq_true.mpr fun c hc => hdig c hc⟩, hval]

theorem mem_le_foldr_max : ∀ {l : List Nat} {v : Nat}, v ∈ l → v ≤ l.foldr max 0 := by
  intro l
  induction l with
  | nil =>
    intro v hv
    exact absurd hv (by simp)
  | cons x t ih =>
    intro v hv
    rcases List.mem_cons.mp hv with h | h
    · rw [h]
      exact le_max_left _ _
    · exact le_trans (ih h) (le_max_right _ _)

/-- Every id the source parses from an existing directory name is strictly
below the next task id. -/
theorem next_task_id_gt {dirs : List (List Char)} {name : List Char} {v : Nat}
    (hmem : name ∈ dirs) (hpre : ("task_".toList).isPrefixOf name = true)
    (hid : taskIdOfSplit name = some v) : v < get_next_task_id dirs := by
  have hmemf : name ∈ dirs.filter (fun d => ("task_".toList).isPrefixOf d) :=
    List.mem_filter.mpr ⟨hmem, hpre⟩
  have hv : v ∈ (dirs.filter (fun d => ("task_".toList).isPrefixOf d)).filterMap taskIdOfSplit :=
    List.mem_filterMap.mpr ⟨name, hmemf, hid⟩
  unfold get_next_task_id
  rw [if_neg (List.ne_nil_of_mem hmemf), if_neg (List.ne_nil_of_mem hv)]
  have hle := mem_le_foldr_max hv
  omega

/-- The folder `create_task_folder` creates does not already exist. -/
theorem task_folder_name_not_mem (dirs : List (List Char)) :
    task_folder_name dirs ∉ dirs := by
  intro hmem
  have hpre : ("task_".toList).isPrefixOf (task_folder_name dirs) = true := by
    unfold task_folder_name
    exact List.isPrefixOf_iff_prefix.mpr (List.prefix_append _ _)
  have hlt := next_task_id_gt hmem hpre (taskIdOfSplit_taskName _)
  omega

/-! ## Lemmas about the retry loop -/

/-- The loop invariant of `retryAux` (configured settings): the trace is
bounded by the fuel, its first record receives the loop's transcriber and
directory state, consecutive records chain the transcriber handle, every
record creates the next-numbered task folder in its own directory state which
extends the initial one, and no two records use the same task folder. -/
def TraceInv (fuel : Nat) (trans : Option Nat) (dirs : List (List Char))
    (tr : List CallRec) : Prop :=
  tr.length ≤ fuel ∧
  (∀ r, tr.head? = some r → r.transIn = trans ∧ r.fsBefore = dirs) ∧
  List.Chain' (fun a b => b.transIn = a.transOut) tr ∧
  (∀ r ∈ tr, r.taskDir = some (task_folder_name r.fsBefore) ∧ dirs ⊆ r.fsBefore) ∧
  List.Pairwise (fun a b => a.taskDir ≠ b.taskDir) tr

/-- One-step unfolding of the loop with configured settings. -/
theorem retryAux_succ_true (outcomes : Nat → ConvOutcome) (userRetry : Nat → Bool)
    (fuel k : Nat) (trans : Option Nat) (dirs : List (List Char)) :
    retryAux true outcomes userRetry (fuel + 1) k trans dirs =
      (if (outcomes k).ok then
        ([⟨trans, (outcomes k).ok, (outcomes k).transOut, dirs,
            some (task_folder_name dirs)⟩], true, (outcomes k).transOut)
      else if fuel = 0 then
        ([⟨trans, (outcomes k).ok, (outcomes k).transOut, dirs,
            some (task_folder_name dirs)⟩], false, (outcomes k).transOut)
      else if userRetry k then
        (⟨trans, (outcomes k).ok, (outcomes k).transOut, dirs,
            some (task_folder_name dirs)⟩ ::
              (retryAux true outcomes userRetry fuel (k + 1) (outcomes k).transOut
                (task_folder_name dirs :: dirs)).1,
          (retryAux true outcomes userRetry fuel (k + 1) (outcomes k).transOut
            (task_folder_name dirs :: dirs)).2.1,
          (retryAux true outcomes userRetry fuel (k + 1) (outcomes k).transOut
            (task_folder_name dirs :: dirs)).2.2)
      else
        ([⟨trans, (outcomes k).ok, (outcomes k).transOut, dirs,
            some (task_folder_name dirs)⟩], false, (outcomes k).transOut)) := rfl

/-- The invariant holds for any single-record trace produced by one call. -/
theorem single_TraceInv (fuel : Nat) (trans : Option Nat) (dirs : List (List Char))
    (ok : Bool) (tOut : Option Nat) :
    TraceInv (fuel + 1) trans dirs [⟨trans, ok, tOut, dirs, some (task_folder_name dirs)⟩] := by
  refine ⟨by simp, ?_, by simp, ?_, by simp⟩
  · intro r hr
    simp only [List.head?_cons, Option.some.injEq] at hr
    subst hr
    exact ⟨rfl, rfl⟩
  · intro r hr
    simp only [List.mem_singleton] at hr
    subst hr
    exact ⟨rfl, List.Subset.refl dirs⟩

/-- The loop invariant holds for every run of `retryAux` with configured
settings. -/
theorem retryAux_TraceInv (outcomes : Nat → ConvOutcome) (userRetry : Nat → Bool) :
    ∀ (fuel k : Nat) (trans : Option Nat) (dirs : List (List Char)),
      TraceInv fuel trans dirs (retryAux true outcomes userRetry fuel k trans dirs).1 := by
  intro fuel
  induction fuel with
  | zero =>
    intro k trans dirs
    exact ⟨by simp [retryAux], by simp [retryAux], by simp [retryAux],
      by simp [retryAux], by simp [retryAux]⟩
  | succ fuel ih =>
    intro k trans dirs
    rw [retryAux_succ_true]
    by_cases hok : (outcomes k).ok = true
    · rw [if_pos hok]
      exact single_TraceInv fuel trans dirs _ _
    · rw [if_neg hok]
      by_cases hf : fuel = 0
      · rw [if_pos hf]
        exact single_TraceInv fuel trans dirs _ _
      · rw [if_neg hf]
        by_cases hu : userRetry k = true
        · rw [if_pos hu]
          obtain ⟨ihlen, ihhead, ihchain, ihall, ihpw⟩ :=
            ih (k + 1) (outcomes k).transOut (task_folder_name dirs :: dirs)
          refine ⟨?_, ?_, ?_, ?_, ?_⟩
          · simp only [List.length_cons]
            omega
          · intro r hr
            simp only [List.head?_cons, Option.some.injEq] at hr
            subst hr
            exact ⟨rfl, rfl⟩
          · rw [List.chain'_cons']
            refine ⟨?_, ihchain⟩
            intro b hb
            exact (ihhead b hb).1
          · intro r hr
            rcases List.mem_cons.mp hr with h | h
            · subst h
              exact ⟨rfl, List.Subset.refl dirs⟩
            · obtain ⟨h1, h2⟩ := ihall r h
              exact ⟨h1, fun x hx => h2 (List.mem_cons_of_mem _ hx)⟩
          · rw [List.pairwise_cons]
            refine ⟨?_, ihpw⟩
            intro b hb heq
            obtain ⟨hb1, hb2⟩ := ihall b hb
            rw [hb1] at heq
            have hnm := Option.some.inj heq
            have hmem : task_folder_name dirs ∈ b.fsBefore :=
              hb2 (List.mem_cons_self _ _)
            rw [hnm] at hmem
            exact task_folder_name_not_mem b.fsBefore hmem
        · rw [if_neg hu]
          exact single_TraceInv fuel trans dirs _ _

/-! ## Claims about `cli.py` -/

/-- Claim C6 (confirmed, for configured settings): the retry wrapper invokes
`run_conversion` at most `max_retries` times (the default is
`defaultMaxRetries = 3`); each re-invocation receives exactly the transcriber
handle the previous attempt returned; and every invocation creates a fresh
numbered task directory — the next-numbered folder, which does not already
exist in its directory state — so no task directory of a failed attempt is
ever reused (all created directories are pairwise distinct). -/
theorem claim_C6_bounded_retry (configured : Bool) (outcomes : Nat → ConvOutcome)
    (userRetry : Nat → Bool) (trans0 : Option Nat) (dirs : List (List Char))
    (maxRetries : Nat) (hc : configured = true) :
    (run_conversion_with_retry configured outcomes userRetry trans0 dirs maxRetries).1.length
        ≤ maxRetries ∧
      List.Chain' (fun a b => b.transIn = a.transOut)
        (run_conversion_with_retry configured outcomes userRetry trans0 dirs maxRetries).1 ∧
      (∀ r ∈ (run_conversion_with_retry configured outcomes userRetry trans0 dirs maxRetries).1,
        r.taskDir = some (task_folder_name r.fsBefore) ∧
          task_folder_name r.fsBefore ∉ r.fsBefore) ∧
      List.Pairwise (fun a b => a.taskDir ≠ b.taskDir)
        (run_conversion_with_retry configured outcomes userRetry trans0 dirs maxRetries).1 := by
  subst hc
  obtain ⟨hlen, hhead, hchain, hall, hpw⟩ :=
    retryAux_TraceInv outcomes userRetry maxRetries 0 trans0 dirs
  exact ⟨hlen, hchain,
    fun r hr => ⟨(hall r hr).1, task_folder_name_not_mem r.fsBefore⟩, hpw⟩

/-- Witness for C6 at a concrete run: three failing attempts, user retries. -/
theorem claim_C6_bounded_retry_witness :
    (run_conversion_with_retry true (fun k => ⟨false, some k⟩) (fun _ => true)
          none [] defaultMaxRetries).1.length ≤ defaultMaxRetries ∧
      List.Chain' (fun a b => b.transIn = a.transOut)
        (run_conversion_with_retry true (fun k => ⟨false, some k⟩) (fun _ => true)
          none [] defaultMaxRetries).1 ∧
      (∀ r ∈ (run_conversion_with_retry true (fun k => ⟨false, some k⟩) (fun _ => true)
          none [] defaultMaxRetries).1,
        r.taskDir = some (task_folder_name r.fsBefore) ∧
          task_folder_name r.fsBefore ∉ r.fsBefore) ∧
      List.Pairwise (fun a b => a.taskDir ≠ b.taskDir)
        (run_conversion_with_retry true (fun k => ⟨false, some k⟩) (fun _ => true)
          none [] defaultMaxRetries).1 :=
  claim_C6_bounded_retry true (fun k => ⟨false, some k⟩) (fun _ => true)
    none [] defaultMaxRetries rfl

/-- Claim C7 (counterexample): on the base directory containing only
`task_12_backup`, the code parses the second underscore-separated component
`12` and returns 13, while the claim's max+1 over `task_<n>` directories
(there are none) is 1. -/
theorem claim_C7_counterexample :
    get_next_task_id ["task_12_backup".toList] = 13 ∧
      spec_next_task_id ["task_12_backup".toList] = 1 ∧
      get_next_task_id ["task_12_backup".toList] ≠
        spec_next_task_id ["task_12_backup".toList] := by
  decide

/-- Claim C7 (amended): `get_next_task_id` returns one more than the maximum
of the numeric second underscore-separated components of the `task_`-prefixed
directory names (1 when none parse) — so it is strictly greater than every id
parsed from an existing directory — and on {task_1, task_3, task_7} it
returns 8, `create_task_folder` creating `task_8`. -/
theorem claim_C7_monotonic_numbering :
    (∀ (dirs : List (List Char)) (name : List Char) (v : Nat),
        name ∈ dirs → ("task_".toList).isPrefixOf name = true →
        taskIdOfSplit name = some v → v < get_next_task_id dirs) ∧
      get_next_task_id ["task_1".toList, "task_3".toList, "task_7".toList] = 8 ∧
      (create_task_folder ["task_1".toList, "task_3".toList, "task_7".toList]).1 =
        "task_8".toList :=
  ⟨fun _ _ _ h1 h2 h3 => next_task_id_gt h1 h2 h3, by decide, by decide⟩

/-- Witness for the monotone half of C7 at a concrete input. -/
theorem claim_C7_monotonic_numbering_witness :
    ("task_3".toList ∈ ["task_1".toList, "task_3".toList, "task_7".toList]) ∧
      ("task_".toList).isPrefixOf ("task_3".toList) = true ∧
      taskIdOfSplit ("task_3".toList) = some 3 ∧
      3 < get_next_task_id ["task_1".toList, "task_3".toList, "task_7".toList] :=
  ⟨by decide, by decide, by decide,
    claim_C7_monotonic_numbering.1 ["task_1".toList, "task_3".toList, "task_7".toList]
      ("task_3".toList) 3 (by decide) (by decide) (by decide)⟩

end Video2docs
